import Mathlib

/-!
# Verification of the NEULBO ML server sensor-to-summary pipeline

Shallow embedding of the core analysis pipeline of the NEULBO-ML-SERVER
repository, together with proofs of the specification claims about it.

Numeric conventions of the embedding:
* Python floats are modelled as rationals (`ℚ`); timestamps are rationals
  measured in seconds (a `datetime` minus a reference epoch), so that
  `timedelta` arithmetic becomes rational arithmetic.
* Python `int(x)` (truncation toward zero) is modelled by `pyInt`.
* The transcendental routines `numpy.sqrt`-style standard deviations and
  `numpy.exp` do not exist over `ℚ`; the embedding is parametric in the
  functions `sqrtQ expQ : ℚ → ℚ` standing for them, and no theorem below
  depends on their values.
-/

/-- Python `int(x)` on a float: truncation toward zero
(`int(-1.5) = -1`, `int(1.5) = 1`). -/
def pyInt (q : ℚ) : ℤ := if q < 0 then -(Int.floor (-q)) else Int.floor q

/-- The five sleep-stage labels (`class_names` in
`app/services/model_service.py` line 183 and the `SleepStage` enum of the
response models): Wake, N1, N2, N3, REM.  The Python code carries them as
strings drawn from exactly this set; the enumeration is the faithful image
of that value space. -/
inductive SleepStage
  | Wake
  | N1
  | N2
  | N3
  | REM
deriving DecidableEq

/-- `SleepStageInterval` of the response models: one run-length-encoded
stage interval.  Times are rational seconds. -/
structure SleepStageInterval where
  start_time : ℚ
  end_time : ℚ
  stage : SleepStage
  confidence : ℚ
deriving DecidableEq

/-!
## Result aggregator: `_create_stage_intervals`
(`app/services/postprocessor.py` lines 78-144)

The Python loop carries the mutable state
`(intervals, current_stage, current_start, current_confidence_sum,
current_count)`; `RLEState` is that state record.  The loop reads
`predictions.confidence_scores[i]` for each `i`; an index past the end of
the confidence list raises `IndexError`, which the surrounding
`try/except` re-raises, so the embedding returns `Option` with `none` for
the raising executions.
-/

/-- The mutable state of the `_create_stage_intervals` loop. -/
structure RLEState where
  intervals : List SleepStageInterval
  currentStage : SleepStage
  currentStart : ℚ
  confSum : ℚ
  count : ℕ

/-- The body of the `for i in range(1, len(predictions.predictions))` loop
of `_create_stage_intervals` (postprocessor.py lines 95-122), processing
the remaining predictions `rest` starting at index `i` and looking
confidences up by index, as the source does.  `W` is
`settings.stage_interval_seconds` and `recStart` is `recording_start`. -/
def rleGo (W recStart : ℚ) (confs : List ℚ) :
    ℕ → List SleepStage → RLEState → Option RLEState
  | _, [], st => some st
  | i, stage :: rest, st =>
    match confs.get? i with
    | none => none
    | some confidence =>
      if stage = st.currentStage then
        rleGo W recStart confs (i + 1) rest
          { st with confSum := st.confSum + confidence, count := st.count + 1 }
      else
        rleGo W recStart confs (i + 1) rest
          { intervals := st.intervals ++
              [⟨st.currentStart, recStart + (i : ℚ) * W, st.currentStage,
                st.confSum / (st.count : ℚ)⟩],
            currentStage := stage,
            currentStart := recStart + (i : ℚ) * W,
            confSum := confidence,
            count := 1 }

/-- The final-interval step of `_create_stage_intervals`
(postprocessor.py lines 124-137): if `current_count > 0`, close the open
run at `recording_start + len(predictions) * stage_interval_seconds`.
`n` is `len(predictions.predictions)`. -/
def rleFinish (W recStart : ℚ) (n : ℕ) (st : RLEState) : List SleepStageInterval :=
  if 0 < st.count then
    st.intervals ++
      [⟨st.currentStart, recStart + (n : ℚ) * W, st.currentStage,
        st.confSum / (st.count : ℚ)⟩]
  else st.intervals

/-- `_create_stage_intervals` (postprocessor.py lines 78-144).  Empty
prediction list returns the empty interval list (line 87); otherwise the
initial state is seeded from `predictions[0]` and
`confidence_scores[0]` (lines 90-93; an empty confidence list raises
`IndexError` there, hence `none`), the loop `rleGo` runs from index 1,
and `rleFinish` closes the last run. -/
def createStageIntervals (W recStart : ℚ) (preds : List SleepStage)
    (confs : List ℚ) : Option (List SleepStageInterval) :=
  match preds with
  | [] => some []
  | p :: rest =>
    match confs.get? 0 with
    | none => none
    | some c0 =>
      match rleGo W recStart confs 1 rest ⟨[], p, recStart, c0, 1⟩ with
      | none => none
      | some st => some (rleFinish W recStart preds.length st)

/-!
## Spec-side run-length encoding

`specIntervals` is written from the specification's words (spec.md §4.4
"Run-length encoding" and §3 `StageInterval`), to be compared with the
source-translated `createStageIntervals`: scan the (label, confidence)
pairs, merge each maximal run of consecutive equal labels into one
interval whose boundaries are `recording_start + index·W` and whose
confidence is the arithmetic mean of the run's confidences.
-/

/-- Modelled from the spec: the run-length encoding described in spec.md
§4.4.  `i` is the index of the first pair of `l` in the original
prediction sequence. -/
def specIntervals (W recStart : ℚ) : ℕ → List (SleepStage × ℚ) → List SleepStageInterval
  | _, [] => []
  | i, (s, c) :: rest =>
    let run := rest.takeWhile (fun p => p.1 = s)
    let len := run.length + 1
    ⟨recStart + (i : ℚ) * W, recStart + ((i + len : ℕ) : ℚ) * W, s,
      (c + (run.map Prod.snd).sum) / (len : ℚ)⟩ ::
      specIntervals W recStart (i + len) (rest.dropWhile (fun p => p.1 = s))
termination_by _ l => l.length
decreasing_by
  simp only [List.length_cons]
  exact Nat.lt_succ_of_le (List.dropWhile_sublist _).length_le

/-!
## Equivalence of the loop with the spec-side encoding
-/

/-- The `_create_stage_intervals` loop body once index lookups are known to
succeed: the same step function as `rleGo`, consuming the
(prediction, confidence) pairs directly. -/
def rleGoP (W recStart : ℚ) : ℕ → List (SleepStage × ℚ) → RLEState → RLEState
  | _, [], st => st
  | i, (stage, confidence) :: rest, st =>
    if stage = st.currentStage then
      rleGoP W recStart (i + 1) rest
        { st with confSum := st.confSum + confidence, count := st.count + 1 }
    else
      rleGoP W recStart (i + 1) rest
        { intervals := st.intervals ++
            [⟨st.currentStart, recStart + (i : ℚ) * W, st.currentStage,
              st.confSum / (st.count : ℚ)⟩],
          currentStage := stage,
          currentStart := recStart + (i : ℚ) * W,
          confSum := confidence,
          count := 1 }

/-- When every index the loop will read is in range, `rleGo` performs no
failing lookup and agrees with the pure pair-consuming loop. -/
lemma rleGo_eq_goP (W recStart : ℚ) (confs : List ℚ) :
    ∀ (rest : List SleepStage) (i : ℕ) (st : RLEState),
      i + rest.length ≤ confs.length →
      rleGo W recStart confs i rest st =
        some (rleGoP W recStart i (rest.zip (confs.drop i)) st) := by
  intro rest
  induction rest with
  | nil => intro i st _; simp [rleGo, rleGoP]
  | cons s rs ih =>
    intro i st h
    have hi : i < confs.length := by simp at h; omega
    have hdrop : confs.drop i = confs.get ⟨i, hi⟩ :: confs.drop (i + 1) :=
      List.drop_eq_getElem_cons hi
    have hget : confs.get? i = some (confs.get ⟨i, hi⟩) := List.get?_eq_get hi
    have hrec : i + 1 + rs.length ≤ confs.length := by simp at h; omega
    simp only [rleGo, hget, hdrop, List.zip_cons_cons, rleGoP]
    by_cases hs : s = st.currentStage
    · simp only [if_pos hs]
      exact ih (i + 1) _ hrec
    · simp only [if_neg hs]
      exact ih (i + 1) _ hrec

/-- If `rleGo` is asked to read past the end of the confidence list it
fails: this is the `IndexError` execution of the source. -/
lemma rleGo_none (W recStart : ℚ) (confs : List ℚ) :
    ∀ (rest : List SleepStage) (i : ℕ) (st : RLEState),
      i ≤ confs.length → confs.length < i + rest.length →
      rleGo W recStart confs i rest st = none := by
  intro rest
  induction rest with
  | nil => intro i st h1 h2; simp at h2; omega
  | cons s rs ih =>
    intro i st h1 h2
    by_cases hi : i < confs.length
    · have hget : confs.get? i = some (confs.get ⟨i, hi⟩) := List.get?_eq_get hi
      simp only [rleGo, hget]
      have h1' : i + 1 ≤ confs.length := hi
      have h2' : confs.length < i + 1 + rs.length := by simp at h2; omega
      by_cases hs : s = st.currentStage
      · simp only [if_pos hs]; exact ih (i + 1) _ h1' h2'
      · simp only [if_neg hs]; exact ih (i + 1) _ h1' h2'
    · have hle : confs.length ≤ i := by omega
      have hget : confs.get? i = none := List.get?_eq_none.mpr hle
      simp only [rleGo, hget]

/-- `takeWhile` passes over a prefix all of whose elements satisfy the
predicate. -/
lemma takeWhile_append_all {α : Type} (p : α → Bool) (l₁ l₂ : List α)
    (h : ∀ x ∈ l₁, p x = true) :
    (l₁ ++ l₂).takeWhile p = l₁ ++ l₂.takeWhile p := by
  induction l₁ with
  | nil => simp
  | cons a t ih =>
    have ha : p a = true := h a (by simp)
    simp only [List.cons_append, List.takeWhile_cons, ha, if_true]
    simp only [List.cons.injEq, true_and]
    exact ih (fun x hx => h x (by simp [hx]))

/-- `dropWhile` drops a prefix all of whose elements satisfy the
predicate. -/
lemma dropWhile_append_all {α : Type} (p : α → Bool) (l₁ l₂ : List α)
    (h : ∀ x ∈ l₁, p x = true) :
    (l₁ ++ l₂).dropWhile p = l₂.dropWhile p := by
  induction l₁ with
  | nil => simp
  | cons a t ih =>
    have ha : p a = true := h a (by simp)
    simp only [List.cons_append, List.dropWhile_cons, ha, if_true]
    exact ih (fun x hx => h x (by simp [hx]))

/-- Pairs built from a constant label all satisfy the run predicate. -/
lemma pair_map_all (s : SleepStage) (cs : List ℚ) :
    ∀ x ∈ cs.map (fun c => (s, c)), (decide (x.1 = s)) = true := by
  intro x hx
  simp only [List.mem_map] at hx
  obtain ⟨c, _, rfl⟩ := hx
  simp

/-- A constant-label run is wholly consumed by `takeWhile`. -/
lemma takeWhile_pair_map (s : SleepStage) (cs : List ℚ) :
    (cs.map (fun c => (s, c))).takeWhile (fun p => p.1 = s) =
      cs.map (fun c => (s, c)) := by
  induction cs with
  | nil => simp
  | cons a t ih => simp [List.takeWhile_cons, ih]

/-- A constant-label run is wholly dropped by `dropWhile`. -/
lemma dropWhile_pair_map (s : SleepStage) (cs : List ℚ) :
    (cs.map (fun c => (s, c))).dropWhile (fun p => p.1 = s) = [] := by
  induction cs with
  | nil => simp
  | cons a t ih => simp [List.dropWhile_cons, ih]

/-- Projecting confidences back out of a constant-label run. -/
lemma snd_pair_map (s : SleepStage) (cs : List ℚ) :
    (cs.map (fun c => (s, c))).map Prod.snd = cs := by
  simp [List.map_map, Function.comp]

/-- Master invariant of the run-length-encoding loop: running the loop
from a state holding an open run of label `s` with confidences `cs`
(started at window index `j`) and already-emitted intervals `acc`, then
closing the last run, yields `acc` followed by the spec-side encoding of
the open run and the remaining input. -/
lemma rleGoP_spec (W recStart : ℚ) :
    ∀ (l : List (SleepStage × ℚ)) (j : ℕ) (cs : List ℚ) (s : SleepStage)
      (acc : List SleepStageInterval), cs ≠ [] →
      rleFinish W recStart (j + cs.length + l.length)
        (rleGoP W recStart (j + cs.length) l
          ⟨acc, s, recStart + (j : ℚ) * W, cs.sum, cs.length⟩) =
        acc ++ specIntervals W recStart j (cs.map (fun c => (s, c)) ++ l) := by
  intro l
  induction l with
  | nil =>
    intro j cs s acc hcs
    obtain ⟨c, cs', rfl⟩ : ∃ c cs', cs = c :: cs' := by
      cases cs with
      | nil => exact absurd rfl hcs
      | cons c cs' => exact ⟨c, cs', rfl⟩
    simp only [rleGoP, List.append_nil, List.map_cons, specIntervals,
      takeWhile_pair_map, dropWhile_pair_map, snd_pair_map, List.length_map]
    simp only [rleFinish, List.length_cons, List.length_nil, add_zero,
      Nat.succ_pos, if_pos, List.sum_cons]
  | cons p ls ih =>
    obtain ⟨t, c'⟩ := p
    intro j cs s acc hcs
    by_cases hts : t = s
    · subst hts
      simp only [rleGoP, if_pos rfl]
      have hstep := ih j (cs ++ [c']) t acc (by simp)
      simp only [List.length_append, List.length_cons, List.length_nil,
        List.sum_append, List.sum_cons, List.sum_nil, add_zero] at hstep
      have harith : j + cs.length + (ls.length + 1) = j + (cs.length + 1) + ls.length := by
        omega
      have hlist : (cs ++ [c']).map (fun c => (t, c)) ++ ls =
          cs.map (fun c => (t, c)) ++ (t, c') :: ls := by
        simp
      rw [List.length_cons, harith]
      rw [hlist] at hstep
      exact hstep
    · obtain ⟨c, cs', rfl⟩ : ∃ c cs', cs = c :: cs' := by
        cases cs with
        | nil => exact absurd rfl hcs
        | cons c cs' => exact ⟨c, cs', rfl⟩
      have hrun : ((c :: cs').map (fun c => (s, c)) ++ (t, c') :: ls) =
          (s, c) :: (cs'.map (fun c => (s, c)) ++ (t, c') :: ls) := by simp
      have htw : (cs'.map (fun c => (s, c)) ++ (t, c') :: ls).takeWhile
          (fun p => p.1 = s) = cs'.map (fun c => (s, c)) := by
        rw [takeWhile_append_all _ _ _ (pair_map_all s cs')]
        simp [List.takeWhile_cons, hts]
      have hdw : (cs'.map (fun c => (s, c)) ++ (t, c') :: ls).dropWhile
          (fun p => p.1 = s) = (t, c') :: ls := by
        rw [dropWhile_append_all _ _ _ (pair_map_all s cs')]
        simp [List.dropWhile_cons, hts]
      simp only [rleGoP, if_neg hts]
      have hstep := ih (j + (c :: cs').length) [c'] t
        (acc ++ [⟨recStart + (j : ℚ) * W,
          recStart + ((j + (c :: cs').length : ℕ) : ℚ) * W, s,
          (c :: cs').sum / (((c :: cs').length : ℕ) : ℚ)⟩]) (by simp)
      simp only [List.length_cons, List.length_nil, List.sum_cons, List.sum_nil,
        add_zero, List.map_cons, List.map_nil, List.nil_append] at hstep ⊢
      have harith : j + (cs'.length + 1) + (ls.length + 1) =
          j + (cs'.length + 1) + 1 + ls.length := by omega
      rw [harith]
      rw [List.append_assoc] at hstep
      simp only [List.singleton_append, List.cons_append] at hstep
      rw [hstep]
      congr 1
      simp only [List.nil_append]
      simp only [List.cons_append, specIntervals, htw, hdw, snd_pair_map,
        List.length_map]

/-- `_create_stage_intervals` agrees with the spec-side run-length
encoding whenever the confidence list is at least as long as the
prediction list (so no index lookup fails). -/
lemma createStageIntervals_eq_spec (W recStart : ℚ) (preds : List SleepStage)
    (confs : List ℚ) (h : preds.length ≤ confs.length) :
    createStageIntervals W recStart preds confs =
      some (specIntervals W recStart 0 (preds.zip confs)) := by
  cases preds with
  | nil => simp [createStageIntervals, specIntervals]
  | cons p rest =>
    cases confs with
    | nil => simp at h
    | cons c0 confs' =>
      have hzip : rest.length ≤ confs'.length := by
        simp only [List.length_cons] at h; omega
      have hlen : 1 + rest.length ≤ (c0 :: confs').length := by
        simp only [List.length_cons]; omega
      have hgo := rleGo_eq_goP W recStart (c0 :: confs') rest 1
        ⟨[], p, recStart, c0, 1⟩ hlen
      simp only [List.drop_succ_cons, List.drop_zero] at hgo
      have hmain := rleGoP_spec W recStart (rest.zip confs') 0 [c0] p []
        (by simp)
      simp only [List.length_cons, List.length_nil, List.sum_cons,
        List.sum_nil, add_zero, zero_add, List.map_cons, List.map_nil,
        List.nil_append, Nat.cast_zero, zero_mul] at hmain
      have hzlen : (rest.zip confs').length = rest.length :=
        by rw [List.length_zip]; omega
      rw [hzlen] at hmain
      rw [Nat.add_comm 1 rest.length] at hmain
      simp only [List.singleton_append] at hmain
      simp only [createStageIntervals, List.get?, hgo, hmain,
        List.zip_cons_cons, List.length_cons]

/-- When the confidence list is strictly shorter than the prediction list,
the loop reads past its end and `_create_stage_intervals` raises
(`IndexError`), i.e. the embedding returns `none`. -/
lemma createStageIntervals_short (W recStart : ℚ) (preds : List SleepStage)
    (confs : List ℚ) (h : confs.length < preds.length) :
    createStageIntervals W recStart preds confs = none := by
  cases preds with
  | nil => simp at h
  | cons p rest =>
    cases confs with
    | nil => simp [createStageIntervals]
    | cons c0 confs' =>
      have hnone := rleGo_none W recStart (c0 :: confs') rest 1
        ⟨[], p, recStart, c0, 1⟩ (by simp)
        (by simp only [List.length_cons] at h ⊢; omega)
      simp only [createStageIntervals, List.get?, hnone]

/-- The head of a `dropWhile` result fails the predicate. -/
lemma dropWhile_head_false {α : Type} (p : α → Bool) :
    ∀ (l : List α) (x : α) (xs : List α), l.dropWhile p = x :: xs → p x = false := by
  intro l
  induction l with
  | nil => intro x xs h; simp at h
  | cons a t ih =>
    intro x xs h
    by_cases hp : p a
    · rw [List.dropWhile_cons_of_pos hp] at h
      exact ih _ _ h
    · rw [List.dropWhile_cons_of_neg hp] at h
      cases h
      simpa using hp

/-- The total duration of the spec-side intervals is one window width per
input pair: no window is dropped or duplicated. -/
lemma specIntervals_sum_durations (W recStart : ℚ) :
    ∀ (n : ℕ) (l : List (SleepStage × ℚ)), l.length ≤ n → ∀ (i : ℕ),
      ((specIntervals W recStart i l).map
        (fun iv => iv.end_time - iv.start_time)).sum = (l.length : ℚ) * W := by
  intro n
  induction n with
  | zero =>
    intro l hl i
    rw [List.length_eq_zero.mp (Nat.le_zero.mp hl)]
    simp [specIntervals]
  | succ n ih =>
    intro l hl i
    cases l with
    | nil => simp [specIntervals]
    | cons p rest =>
      obtain ⟨s, c⟩ := p
      have hpart : (rest.takeWhile (fun q => q.1 = s)).length +
          (rest.dropWhile (fun q => q.1 = s)).length = rest.length := by
        rw [← List.length_append, List.takeWhile_append_dropWhile]
      have hdrop_le : (rest.dropWhile (fun q => q.1 = s)).length ≤ n := by
        have := (List.dropWhile_sublist (l := rest)
          (p := fun q => q.1 = s)).length_le
        simp only [List.length_cons] at hl
        omega
      simp only [specIntervals, List.map_cons, List.sum_cons,
        ih _ hdrop_le (i + ((rest.takeWhile (fun q => q.1 = s)).length + 1)),
        List.length_cons]
      rw [← hpart]
      push_cast
      ring

/-- Every spec-side interval spans a positive whole number of windows. -/
lemma specIntervals_mem_width (W recStart : ℚ) :
    ∀ (n : ℕ) (l : List (SleepStage × ℚ)), l.length ≤ n → ∀ (i : ℕ)
      (iv : SleepStageInterval), iv ∈ specIntervals W recStart i l →
      ∃ k : ℕ, 1 ≤ k ∧ iv.end_time = iv.start_time + (k : ℚ) * W := by
  intro n
  induction n with
  | zero =>
    intro l hl i iv hiv
    rw [List.length_eq_zero.mp (Nat.le_zero.mp hl)] at hiv
    simp [specIntervals] at hiv
  | succ n ih =>
    intro l hl i iv hiv
    cases l with
    | nil => simp [specIntervals] at hiv
    | cons p rest =>
      obtain ⟨s, c⟩ := p
      have hdrop_le : (rest.dropWhile (fun q => q.1 = s)).length ≤ n := by
        have := (List.dropWhile_sublist (l := rest)
          (p := fun q => q.1 = s)).length_le
        simp only [List.length_cons] at hl
        omega
      simp only [specIntervals, List.mem_cons] at hiv
      rcases hiv with hiv | hiv
      · refine ⟨(rest.takeWhile (fun q => q.1 = s)).length + 1, by omega, ?_⟩
        rw [hiv]
        push_cast
        ring
      · exact ih _ hdrop_le _ iv hiv

/-- Start time and stage of the first spec-side interval. -/
lemma specIntervals_cons_eq (W recStart : ℚ) (i : ℕ) (s : SleepStage) (c : ℚ)
    (rest : List (SleepStage × ℚ)) :
    specIntervals W recStart i ((s, c) :: rest) =
      ⟨recStart + (i : ℚ) * W,
        recStart + ((i + ((rest.takeWhile (fun q => q.1 = s)).length + 1) : ℕ) : ℚ) * W,
        s, (c + ((rest.takeWhile (fun q => q.1 = s)).map Prod.snd).sum) /
          (((rest.takeWhile (fun q => q.1 = s)).length + 1 : ℕ) : ℚ)⟩ ::
      specIntervals W recStart (i + ((rest.takeWhile (fun q => q.1 = s)).length + 1))
        (rest.dropWhile (fun q => q.1 = s)) := by
  rw [specIntervals]

/-- The spec-side intervals form a contiguous chain with alternating
labels: each interval starts where the previous one ends, and adjacent
intervals carry different stages. -/
lemma specIntervals_chain (W recStart : ℚ) :
    ∀ (n : ℕ) (l : List (SleepStage × ℚ)), l.length ≤ n → ∀ (i : ℕ),
      List.Chain' (fun a b => b.start_time = a.end_time ∧ a.stage ≠ b.stage)
        (specIntervals W recStart i l) := by
  intro n
  induction n with
  | zero =>
    intro l hl i
    rw [List.length_eq_zero.mp (Nat.le_zero.mp hl)]
    simp [specIntervals]
  | succ n ih =>
    intro l hl i
    cases l with
    | nil => simp [specIntervals]
    | cons p rest =>
      obtain ⟨s, c⟩ := p
      have hdrop_le : (rest.dropWhile (fun q => q.1 = s)).length ≤ n := by
        have := (List.dropWhile_sublist (l := rest)
          (p := fun q => q.1 = s)).length_le
        simp only [List.length_cons] at hl
        omega
      rw [specIntervals_cons_eq]
      refine List.chain'_cons'.mpr ⟨?_, ih _ hdrop_le _⟩
      intro y hy
      cases hdw : rest.dropWhile (fun q => q.1 = s) with
      | nil =>
        rw [hdw] at hy
        simp [specIntervals] at hy
      | cons q qs =>
        obtain ⟨t, c'⟩ := q
        rw [hdw, specIntervals_cons_eq] at hy
        simp only [List.head?_cons, Option.mem_def, Option.some.injEq] at hy
        have hts : t ≠ s := by
          have := dropWhile_head_false (fun q => decide (q.1 = s)) rest _ _ hdw
          simpa using this
        constructor
        · rw [← hy]
        · rw [← hy]
          simp only [ne_eq]
          intro hcontra
          exact hts (by simpa using hcontra.symm)

/-- C1: for every prediction sequence with an aligned confidence
sequence, `_create_stage_intervals` produces exactly the spec-side
run-length encoding — maximal runs of consecutive equal labels merged
into intervals closing at `recording_start + i·W` at each label change
and at `recording_start + N·W` for the final interval, each with the
arithmetic mean of its constituent confidences — and the interval
durations sum to `N` windows. -/
theorem C1_run_length_encoding (W recStart : ℚ) (preds : List SleepStage)
    (confs : List ℚ) (h : confs.length = preds.length) :
    createStageIntervals W recStart preds confs =
      some (specIntervals W recStart 0 (preds.zip confs)) ∧
    ((specIntervals W recStart 0 (preds.zip confs)).map
      (fun iv => iv.end_time - iv.start_time)).sum = (preds.length : ℚ) * W := by
  constructor
  · exact createStageIntervals_eq_spec W recStart preds confs (le_of_eq h.symm)
  · have hs := specIntervals_sum_durations W recStart (preds.zip confs).length
      (preds.zip confs) le_rfl 0
    rwa [List.length_zip, h, min_self] at hs

/-- Witness for C1 at a concrete input: three windows, a Wake run of two
windows followed by one N2 window. -/
theorem C1_run_length_encoding_witness :
    createStageIntervals 30 0 [SleepStage.Wake, SleepStage.Wake, SleepStage.N2]
        [1, 1/2, 1] =
      some (specIntervals 30 0 0
        ([SleepStage.Wake, SleepStage.Wake, SleepStage.N2].zip [1, 1/2, 1])) ∧
    ((specIntervals 30 0 0
        ([SleepStage.Wake, SleepStage.Wake, SleepStage.N2].zip [1, 1/2, 1])).map
      (fun iv => iv.end_time - iv.start_time)).sum =
      (([SleepStage.Wake, SleepStage.Wake, SleepStage.N2] : List SleepStage).length : ℚ) * 30 :=
  C1_run_length_encoding 30 0 _ _ (by rfl)

/-- C9 counterexample: the prediction and confidence counts are
misaligned (1 prediction, 2 confidences), yet `_create_stage_intervals`
does not raise — it silently ignores the extra confidence and produces an
interval list. -/
theorem C9_counterexample :
    ([(1 : ℚ), 1].length ≠ [SleepStage.Wake].length) ∧
    createStageIntervals 30 0 [SleepStage.Wake] [1, 1] =
      some [⟨0, 30, SleepStage.Wake, 1⟩] := by
  constructor
  · simp
  · simp only [createStageIntervals, List.get?, rleGo, rleFinish]
    norm_num

/-- C9 (amended): aggregation fails before producing any output exactly
when the confidence list is shorter than the prediction list (the
`IndexError` executions); when it is at least as long, output is always
produced, extra confidences being silently ignored. -/
theorem C9_misalignment (W recStart : ℚ) (preds : List SleepStage)
    (confs : List ℚ) :
    (confs.length < preds.length →
      createStageIntervals W recStart preds confs = none) ∧
    (preds.length ≤ confs.length →
      ∃ ivs, createStageIntervals W recStart preds confs = some ivs) :=
  ⟨fun h => createStageIntervals_short W recStart preds confs h,
   fun h => ⟨_, createStageIntervals_eq_spec W recStart preds confs h⟩⟩

/-- Witness for C9 (amended) at a concrete input: two predictions but
only one confidence raise; two predictions with two confidences
succeed. -/
theorem C9_misalignment_witness :
    createStageIntervals 30 0 [SleepStage.Wake, SleepStage.N2] [1] = none ∧
    ∃ ivs, createStageIntervals 30 0 [SleepStage.Wake, SleepStage.N2] [1, 1] =
      some ivs :=
  ⟨(C9_misalignment 30 0 [SleepStage.Wake, SleepStage.N2] [1]).1 (by decide),
   (C9_misalignment 30 0 [SleepStage.Wake, SleepStage.N2] [1, 1]).2 (by decide)⟩

/-- C10: for aligned non-empty inputs the produced interval list is a
contiguous partition of the covered span: the first interval starts at
`recording_start`, every interval starts where the previous one ends,
and adjacent intervals carry different labels. -/
theorem C10_contiguous_partition (W recStart : ℚ) (preds : List SleepStage)
    (confs : List ℚ) (h : confs.length = preds.length) (hne : preds ≠ []) :
    ∃ iv tl, createStageIntervals W recStart preds confs = some (iv :: tl) ∧
      iv.start_time = recStart ∧
      List.Chain' (fun a b => b.start_time = a.end_time ∧ a.stage ≠ b.stage)
        (iv :: tl) := by
  cases preds with
  | nil => exact absurd rfl hne
  | cons p rest =>
    cases confs with
    | nil => simp at h
    | cons c confs' =>
      have heq := createStageIntervals_eq_spec W recStart (p :: rest)
        (c :: confs') (le_of_eq h.symm)
      rw [List.zip_cons_cons, specIntervals_cons_eq] at heq
      refine ⟨_, _, heq, by simp, ?_⟩
      rw [← specIntervals_cons_eq, ← List.zip_cons_cons]
      exact specIntervals_chain W recStart
        ((p :: rest).zip (c :: confs')).length _ le_rfl 0

/-- Witness for C10 at a concrete input. -/
theorem C10_contiguous_partition_witness :
    ∃ iv tl, createStageIntervals 30 0
        [SleepStage.Wake, SleepStage.N2, SleepStage.N2] [1, 1/2, 1] = some (iv :: tl) ∧
      iv.start_time = 0 ∧
      List.Chain' (fun a b => b.start_time = a.end_time ∧ a.stage ≠ b.stage)
        (iv :: tl) :=
  C10_contiguous_partition 30 0 _ _ rfl (by simp)

/-!
## Round-trip: label expansion of an interval list
-/

/-- Number of whole windows covered by an interval (duration divided by
the window width). -/
def intervalWindows (W : ℚ) (iv : SleepStageInterval) : ℕ :=
  (⌊(iv.end_time - iv.start_time) / W⌋).toNat

/-- Modelled from the spec: the label-expansion of spec.md §8 — one
(label, confidence) entry per window of each interval. -/
def expandIntervals (W : ℚ) (ivs : List SleepStageInterval) :
    List (SleepStage × ℚ) :=
  ivs.flatMap (fun iv =>
    List.replicate (intervalWindows W iv) (iv.stage, iv.confidence))

/-- Expansion unfolds one interval at a time. -/
lemma expandIntervals_cons (W : ℚ) (iv : SleepStageInterval)
    (tl : List SleepStageInterval) :
    expandIntervals W (iv :: tl) =
      List.replicate (intervalWindows W iv) (iv.stage, iv.confidence) ++
        expandIntervals W tl := by
  simp [expandIntervals]

/-- An interval spanning `k ≥ 1` windows expands to `k` copies of its
(label, confidence) pair. -/
lemma intervalWindows_eq (W : ℚ) (hW : 0 < W) (iv : SleepStageInterval)
    (k : ℕ) (hk : iv.end_time = iv.start_time + (k : ℚ) * W) :
    intervalWindows W iv = k := by
  unfold intervalWindows
  rw [hk]
  have : iv.start_time + (k : ℚ) * W - iv.start_time = (k : ℚ) * W := by ring
  rw [this, mul_div_assoc, div_self (ne_of_gt hW), mul_one]
  simp


/-- Zipping the two projections of a pair list restores the list. -/
lemma zip_proj_eq {α β : Type} :
    ∀ (l : List (α × β)), (l.map Prod.fst).zip (l.map Prod.snd) = l := by
  intro l
  induction l with
  | nil => rfl
  | cons p t ih =>
    obtain ⟨a, b⟩ := p
    simp [ih]

/-- Re-aggregating the expansion of a well-formed interval list (a
contiguous chain of alternating labels, each interval spanning a positive
whole number of windows, starting at window index `i`) reproduces the
list exactly. -/
lemma specIntervals_expand (W recStart : ℚ) (hW : 0 < W) :
    ∀ (ivs : List SleepStageInterval) (i : ℕ),
      List.Chain' (fun a b => b.start_time = a.end_time ∧ a.stage ≠ b.stage) ivs →
      (∀ iv ∈ ivs, ∃ k : ℕ, 1 ≤ k ∧
        iv.end_time = iv.start_time + (k : ℚ) * W) →
      (∀ iv0 ∈ ivs.head?, iv0.start_time = recStart + (i : ℚ) * W) →
      specIntervals W recStart i (expandIntervals W ivs) = ivs := by
  intro ivs
  induction ivs with
  | nil => intro i _ _ _; simp [expandIntervals, specIntervals]
  | cons iv tl ih =>
    intro i hchain hwidth hhead
    obtain ⟨k, hk1, hk⟩ := hwidth iv (by simp)
    have hkwin : intervalWindows W iv = k := intervalWindows_eq W hW iv k hk
    have hstart : iv.start_time = recStart + (i : ℚ) * W := hhead iv (by simp)
    obtain ⟨m, rfl⟩ : ∃ m, k = m + 1 := ⟨k - 1, by omega⟩
    have hiv_end : recStart + ((i + (m + 1) : ℕ) : ℚ) * W = iv.end_time := by
      rw [hk, hstart]; push_cast; ring
    rw [expandIntervals_cons, hkwin, List.replicate_succ, List.cons_append]
    have hrep_all : ∀ x ∈ List.replicate m (iv.stage, iv.confidence),
        (decide ((x : SleepStage × ℚ).1 = iv.stage)) = true := by
      intro x hx
      rw [List.eq_of_mem_replicate hx]
      simp
    have hshape : expandIntervals W tl = [] ∨
        ∃ q qs, expandIntervals W tl = q :: qs ∧
          (decide ((q : SleepStage × ℚ).1 = iv.stage)) = false := by
      cases tl with
      | nil => exact Or.inl (by simp [expandIntervals])
      | cons iv2 tl2 =>
        obtain ⟨k2, hk21, hk2⟩ := hwidth iv2 (by simp)
        have hkwin2 : intervalWindows W iv2 = k2 :=
          intervalWindows_eq W hW iv2 k2 hk2
        obtain ⟨m2, rfl⟩ : ∃ m2, k2 = m2 + 1 := ⟨k2 - 1, by omega⟩
        have hne : iv.stage ≠ iv2.stage :=
          ((List.chain'_cons'.mp hchain).1 iv2 (by simp)).2
        refine Or.inr ⟨(iv2.stage, iv2.confidence),
          List.replicate m2 (iv2.stage, iv2.confidence) ++
            expandIntervals W tl2, ?_, ?_⟩
        · rw [expandIntervals_cons, hkwin2, List.replicate_succ,
            List.cons_append]
        · simpa using fun h => hne h.symm
    have htw : (List.replicate m (iv.stage, iv.confidence) ++
        expandIntervals W tl).takeWhile (fun q => q.1 = iv.stage) =
        List.replicate m (iv.stage, iv.confidence) := by
      rw [takeWhile_append_all _ _ _ hrep_all]
      rcases hshape with hemp | ⟨q, qs, hq, hqf⟩
      · simp [hemp]
      · rw [hq]
        simp [List.takeWhile_cons, hqf]
    have hdw : (List.replicate m (iv.stage, iv.confidence) ++
        expandIntervals W tl).dropWhile (fun q => q.1 = iv.stage) =
        expandIntervals W tl := by
      rw [dropWhile_append_all _ _ _ hrep_all]
      rcases hshape with hemp | ⟨q, qs, hq, hqf⟩
      · simp [hemp]
      · rw [hq]
        simp [List.dropWhile_cons, hqf]
    have htailchain := (List.chain'_cons'.mp hchain).2
    have htailwidth : ∀ iv2 ∈ tl, ∃ k2 : ℕ, 1 ≤ k2 ∧
        iv2.end_time = iv2.start_time + (k2 : ℚ) * W :=
      fun iv2 h2 => hwidth iv2 (List.mem_cons_of_mem _ h2)
    have htailhead : ∀ iv0 ∈ tl.head?,
        iv0.start_time = recStart + ((i + (m + 1) : ℕ) : ℚ) * W := by
      intro iv0 h0
      have hrel := (List.chain'_cons'.mp hchain).1 iv0 h0
      rw [hrel.1, ← hiv_end]
    have hconf : (iv.confidence + (m : ℚ) * iv.confidence) /
        (((m + 1 : ℕ)) : ℚ) = iv.confidence := by
      have hm : ((m : ℚ) + 1) ≠ 0 := by positivity
      push_cast
      field_simp
      ring
    rw [specIntervals_cons_eq, htw, hdw]
    simp only [List.length_replicate, List.map_replicate, List.sum_replicate,
      smul_eq_mul]
    rw [ih (i + (m + 1)) htailchain htailwidth htailhead]
    simp only [List.cons.injEq]
    refine ⟨?_, trivial⟩
    have hns : m • iv.confidence = (m : ℚ) * iv.confidence :=
      nsmul_eq_mul m iv.confidence
    rw [hns, hconf, ← hstart, hiv_end]

/-- C7: expanding the aggregator's own interval list back into a
per-window label/confidence sequence (one entry per window of each
interval) and re-aggregating yields the identical interval list. -/
theorem C7_roundtrip (W recStart : ℚ) (hW : 0 < W) (preds : List SleepStage)
    (confs : List ℚ) (h : confs.length = preds.length) :
    ∃ ivs, createStageIntervals W recStart preds confs = some ivs ∧
      createStageIntervals W recStart
        ((expandIntervals W ivs).map Prod.fst)
        ((expandIntervals W ivs).map Prod.snd) = some ivs := by
  refine ⟨specIntervals W recStart 0 (preds.zip confs),
    createStageIntervals_eq_spec W recStart preds confs (le_of_eq h.symm), ?_⟩
  have hchain := specIntervals_chain W recStart (preds.zip confs).length
    (preds.zip confs) le_rfl 0
  have hwidth := fun iv hiv => specIntervals_mem_width W recStart
    (preds.zip confs).length (preds.zip confs) le_rfl 0 iv hiv
  have hhead : ∀ iv0 ∈ (specIntervals W recStart 0 (preds.zip confs)).head?,
      iv0.start_time = recStart + ((0 : ℕ) : ℚ) * W := by
    intro iv0 h0
    cases hz : preds.zip confs with
    | nil => rw [hz] at h0; simp [specIntervals] at h0
    | cons q rest =>
      obtain ⟨s, c⟩ := q
      rw [hz, specIntervals_cons_eq] at h0
      simp only [List.head?_cons, Option.mem_def, Option.some.injEq] at h0
      rw [← h0]
  have hrt := specIntervals_expand W recStart hW
    (specIntervals W recStart 0 (preds.zip confs)) 0 hchain hwidth hhead
  rw [createStageIntervals_eq_spec W recStart _ _ (by simp)]
  rw [zip_proj_eq, hrt]

/-- Witness for C7 at a concrete input. -/
theorem C7_roundtrip_witness :
    ∃ ivs, createStageIntervals 30 0 [SleepStage.Wake, SleepStage.N2]
        [1, 1/2] = some ivs ∧
      createStageIntervals 30 0 ((expandIntervals 30 ivs).map Prod.fst)
        ((expandIntervals 30 ivs).map Prod.snd) = some ivs :=
  C7_roundtrip 30 0 (by norm_num) _ _ (by rfl)

/-!
## Summary statistics: `_calculate_summary_statistics`
(`app/services/postprocessor.py` lines 183-258)

Each duration is converted to whole minutes per interval with Python
`int(duration_seconds / 60)`.
-/

/-- `int((interval.end_time - interval.start_time).total_seconds() / 60)`
(postprocessor.py lines 201-202 and 232). -/
def intervalMinutes (iv : SleepStageInterval) : ℤ :=
  pyInt ((iv.end_time - iv.start_time) / 60)

/-- The `stage_durations` dictionary accumulation (postprocessor.py lines
192-203): start from zero for the five labels and add each interval's
whole minutes to its label's entry. -/
def stageDurations (ivs : List SleepStageInterval) : SleepStage → ℤ :=
  ivs.foldl
    (fun m iv => fun s => if s = iv.stage then m s + intervalMinutes iv else m s)
    (fun _ => 0)

/-- `total_recording_time` (postprocessor.py line 206). -/
def totalRecordingTime (recStart recEnd : ℚ) : ℤ :=
  pyInt ((recEnd - recStart) / 60)

/-- `total_sleep_time` (postprocessor.py lines 209-212): the sum of the
duration entries of every label other than Wake (dict iteration order
Wake, N1, N2, N3, REM). -/
def totalSleepTime (ivs : List SleepStageInterval) : ℤ :=
  stageDurations ivs SleepStage.N1 + stageDurations ivs SleepStage.N2 +
    stageDurations ivs SleepStage.N3 + stageDurations ivs SleepStage.REM

/-- `sleep_onset_latency` (postprocessor.py lines 218-222): minutes from
`recording_start` to the start of the first non-Wake interval, 0 when no
such interval exists (the loop's `break`-on-first-match is `find?`). -/
def sleepOnsetLatency (ivs : List SleepStageInterval) (recStart : ℚ) : ℤ :=
  match ivs.find? (fun iv => iv.stage ≠ SleepStage.Wake) with
  | some iv => pyInt ((iv.start_time - recStart) / 60)
  | none => 0

/-- One iteration of the `wake_after_sleep_onset` loop (postprocessor.py
lines 228-233): a non-Wake interval sets `sleep_started`; a Wake interval
adds its minutes only when `sleep_started` already holds. -/
def wasoStep (acc : Bool × ℤ) (iv : SleepStageInterval) : Bool × ℤ :=
  if iv.stage ≠ SleepStage.Wake then (true, acc.2)
  else if acc.1 = true ∧ iv.stage = SleepStage.Wake then
    (acc.1, acc.2 + intervalMinutes iv)
  else acc

/-- `wake_after_sleep_onset` (postprocessor.py lines 225-233). -/
def wakeAfterSleepOnset (ivs : List SleepStageInterval) : ℤ :=
  (ivs.foldl wasoStep (false, 0)).2

/-- `pyInt` is the identity on integers. -/
lemma pyInt_intCast (z : ℤ) : pyInt ((z : ℚ)) = z := by
  unfold pyInt
  by_cases hz : ((z : ℚ)) < 0
  · rw [if_pos hz, ← Int.cast_neg, Int.floor_intCast]
    omega
  · rw [if_neg hz, Int.floor_intCast]

/-- The duration dictionary, read at one label, sums the whole minutes of
the intervals carrying that label. -/
lemma stageDurations_eq_filter (ivs : List SleepStageInterval) (s : SleepStage) :
    stageDurations ivs s =
      ((ivs.filter (fun iv => iv.stage = s)).map intervalMinutes).sum := by
  have key : ∀ (l : List SleepStageInterval) (m : SleepStage → ℤ),
      l.foldl (fun m iv => fun s =>
        if s = iv.stage then m s + intervalMinutes iv else m s) m s =
      m s + ((l.filter (fun iv => iv.stage = s)).map intervalMinutes).sum := by
    intro l
    induction l with
    | nil => intro m; simp
    | cons iv t ih =>
      intro m
      rw [List.foldl_cons, ih]
      by_cases hs : s = iv.stage
      · rw [if_pos hs]
        rw [List.filter_cons_of_pos (by simp [hs])]
        simp only [List.map_cons, List.sum_cons]
        omega
      · rw [if_neg hs]
        rw [List.filter_cons_of_neg (by simpa using fun h => hs h.symm)]
  unfold stageDurations
  rw [key]
  simp

/-- The five per-label minute totals partition the per-interval minute
total. -/
lemma stageDurations_partition (ivs : List SleepStageInterval) :
    stageDurations ivs SleepStage.Wake + stageDurations ivs SleepStage.N1 +
      stageDurations ivs SleepStage.N2 + stageDurations ivs SleepStage.N3 +
      stageDurations ivs SleepStage.REM = (ivs.map intervalMinutes).sum := by
  simp only [stageDurations_eq_filter]
  induction ivs with
  | nil => simp
  | cons iv t ih =>
    cases hst : iv.stage <;>
      simp [List.filter_cons, hst, List.sum_cons] <;> omega

/-- When every interval's duration is a whole number of minutes, the
minute total is exact: sixty times it equals the summed durations in
seconds. -/
lemma sum_intervalMinutes_exact (ivs : List SleepStageInterval)
    (hdiv : ∀ iv ∈ ivs, ∃ k : ℤ, iv.end_time - iv.start_time = 60 * (k : ℚ)) :
    (((ivs.map intervalMinutes).sum : ℤ) : ℚ) * 60 =
      (ivs.map (fun iv => iv.end_time - iv.start_time)).sum := by
  induction ivs with
  | nil => simp
  | cons iv t ih =>
    obtain ⟨k, hk⟩ := hdiv iv (by simp)
    have hmin : intervalMinutes iv = k := by
      unfold intervalMinutes
      rw [hk]
      have h60 : (60 : ℚ) * (k : ℚ) / 60 = (k : ℚ) := by
        field_simp
      rw [h60, pyInt_intCast]
    have iht := ih (fun j hj => hdiv j (List.mem_cons_of_mem _ hj))
    simp only [List.map_cons, List.sum_cons, hmin, hk]
    push_cast
    push_cast at iht
    linarith

/-- C3 counterexample: two one-window intervals (N1 then N2) over a
60-second recording.  Each interval's minutes floor to 0, so
`total_sleep_time = 0`, while `total_recording_minutes − m[Wake] = 1`:
the claimed identity fails on the aggregator's own output. -/
theorem C3_counterexample :
    createStageIntervals 30 0 [SleepStage.N1, SleepStage.N2] [1, 1] =
      some [⟨0, 30, SleepStage.N1, 1⟩, ⟨30, 60, SleepStage.N2, 1⟩] ∧
    totalSleepTime [⟨0, 30, SleepStage.N1, 1⟩, ⟨30, 60, SleepStage.N2, 1⟩] = 0 ∧
    totalRecordingTime 0 60 -
      stageDurations [⟨0, 30, SleepStage.N1, 1⟩, ⟨30, 60, SleepStage.N2, 1⟩]
        SleepStage.Wake = 1 ∧
    (0 : ℤ) ≠ 1 := by
  refine ⟨?_, ?_, ?_, by omega⟩
  · simp only [createStageIntervals, List.get?, rleGo, rleFinish,
      if_neg (show ¬ (SleepStage.N2 = SleepStage.N1) by decide)]
    norm_num [SleepStageInterval.mk.injEq]
  · simp only [totalSleepTime, stageDurations, List.foldl, intervalMinutes]
    norm_num [pyInt]
  · simp only [totalRecordingTime, stageDurations, List.foldl, intervalMinutes]
    norm_num [pyInt]

/-- C3 (amended): `total_sleep_time` is the sum of the per-label minutes
of the four non-Wake labels.  Because the code floors each interval's
minutes individually, the claimed identity
`total_sleep_time = total_recording_minutes − m[Wake]` holds under the
additional assumptions that every interval's duration is a whole number
of minutes and that the recording span equals the covered span
`N · window_seconds`. -/
theorem C3_total_sleep (W recStart recEnd : ℚ) (preds : List SleepStage)
    (confs : List ℚ) (h : confs.length = preds.length)
    (ivs : List SleepStageInterval)
    (hivs : createStageIntervals W recStart preds confs = some ivs)
    (hdiv : ∀ iv ∈ ivs, ∃ k : ℤ, iv.end_time - iv.start_time = 60 * (k : ℚ))
    (hrec : recEnd - recStart = (preds.length : ℚ) * W) :
    totalSleepTime ivs =
      totalRecordingTime recStart recEnd - stageDurations ivs SleepStage.Wake := by
  have hspec := createStageIntervals_eq_spec W recStart preds confs
    (le_of_eq h.symm)
  rw [hivs] at hspec
  have hivs_eq : ivs = specIntervals W recStart 0 (preds.zip confs) :=
    Option.some.injEq _ _ ▸ (by simpa using hspec)
  have hsum : (ivs.map (fun iv => iv.end_time - iv.start_time)).sum =
      (preds.length : ℚ) * W := by
    rw [hivs_eq]
    have hs := specIntervals_sum_durations W recStart (preds.zip confs).length
      (preds.zip confs) le_rfl 0
    rwa [List.length_zip, h, min_self] at hs
  have hexact := sum_intervalMinutes_exact ivs hdiv
  rw [hsum] at hexact
  have htot : totalRecordingTime recStart recEnd = (ivs.map intervalMinutes).sum := by
    unfold totalRecordingTime
    rw [hrec, ← hexact]
    have h60 : ((((ivs.map intervalMinutes).sum : ℤ) : ℚ)) * 60 / 60 =
        (((ivs.map intervalMinutes).sum : ℤ) : ℚ) := by
      field_simp
    rw [h60, pyInt_intCast]
  have hpart := stageDurations_partition ivs
  unfold totalSleepTime
  omega

/-- Witness for C3 (amended) at a concrete input: two windows of N2 with
a 60-second window, a 120-second recording. -/
theorem C3_total_sleep_witness :
    totalSleepTime [⟨0, 120, SleepStage.N2, 1⟩] =
      totalRecordingTime 0 120 -
        stageDurations [⟨0, 120, SleepStage.N2, 1⟩] SleepStage.Wake := by
  have happ := C3_total_sleep 60 0 120 [SleepStage.N2, SleepStage.N2] [1, 1]
    (by rfl) [⟨0, 120, SleepStage.N2, 1⟩] ?_ ?_ ?_
  · exact happ
  · simp only [createStageIntervals, List.get?, rleGo, rleFinish,
      if_pos rfl]
    norm_num [SleepStageInterval.mk.injEq]
  · intro iv hiv
    simp only [List.mem_singleton] at hiv
    exact ⟨2, by rw [hiv]; norm_num⟩
  · norm_num

/-- The latency scan skips a prefix of Wake intervals. -/
lemma find_nonwake_append (pre : List SleepStageInterval)
    (iv : SleepStageInterval) (post : List SleepStageInterval)
    (hpre : ∀ j ∈ pre, j.stage = SleepStage.Wake)
    (hiv : iv.stage ≠ SleepStage.Wake) :
    (pre ++ iv :: post).find? (fun j => j.stage ≠ SleepStage.Wake) = some iv := by
  induction pre with
  | nil =>
    rw [List.nil_append, List.find?_cons_of_pos _ (by simpa using hiv)]
  | cons a t ih =>
    have ha : a.stage = SleepStage.Wake := hpre a (by simp)
    rw [List.cons_append, List.find?_cons_of_neg _ (by simp [ha])]
    exact ih (fun j hj => hpre j (by simp [hj]))

/-- A Wake-only list leaves the latency scan empty. -/
lemma find_nonwake_none (ivs : List SleepStageInterval)
    (hall : ∀ j ∈ ivs, j.stage = SleepStage.Wake) :
    ivs.find? (fun j => j.stage ≠ SleepStage.Wake) = none := by
  induction ivs with
  | nil => rfl
  | cons a t ih =>
    have ha : a.stage = SleepStage.Wake := hall a (by simp)
    rw [List.find?_cons_of_neg _ (by simp [ha])]
    exact ih (fun j hj => hall j (by simp [hj]))

/-- Before any non-Wake interval is seen, the WASO loop stays in its
initial state. -/
lemma wasoStep_wake_run (pre : List SleepStageInterval)
    (hpre : ∀ j ∈ pre, j.stage = SleepStage.Wake) :
    pre.foldl wasoStep (false, 0) = (false, 0) := by
  induction pre with
  | nil => rfl
  | cons a t ih =>
    have ha : a.stage = SleepStage.Wake := hpre a (by simp)
    rw [List.foldl_cons]
    have hstep : wasoStep (false, 0) a = (false, 0) := by
      unfold wasoStep
      rw [if_neg (by simp [ha]), if_neg (by simp)]
    rw [hstep]
    exact ih (fun j hj => hpre j (by simp [hj]))

/-- Once sleep has started, the WASO loop adds exactly the minutes of the
Wake intervals it still encounters. -/
lemma wasoStep_after_onset (post : List SleepStageInterval) :
    ∀ (w : ℤ), post.foldl wasoStep (true, w) =
      (true, w + ((post.filter (fun j => j.stage = SleepStage.Wake)).map
        intervalMinutes).sum) := by
  induction post with
  | nil => intro w; simp
  | cons a t ih =>
    intro w
    rw [List.foldl_cons]
    by_cases ha : a.stage = SleepStage.Wake
    · have hstep : wasoStep (true, w) a = (true, w + intervalMinutes a) := by
        unfold wasoStep
        rw [if_neg (by simp [ha]), if_pos ⟨rfl, ha⟩]
      rw [hstep, ih, List.filter_cons_of_pos (by simpa using ha)]
      simp only [List.map_cons, List.sum_cons]
      ring_nf
    · have hstep : wasoStep (true, w) a = (true, w) := by
        unfold wasoStep
        rw [if_pos (by simpa using ha)]
      rw [hstep, ih, List.filter_cons_of_neg (by simpa using ha)]

/-- C8: `sleep_onset_latency` is the whole minutes from `recording_start`
to the start of the first non-Wake interval (0 when every interval is
Wake), and `wake_after_sleep_onset` is the summed whole minutes of
exactly the Wake intervals occurring strictly after that first non-Wake
interval (0 when every interval is Wake), the accumulation being gated by
the `sleep_started` flag. -/
theorem C8_latency_waso (ivs : List SleepStageInterval) (recStart : ℚ) :
    (∀ pre iv post, ivs = pre ++ iv :: post →
      (∀ j ∈ pre, j.stage = SleepStage.Wake) → iv.stage ≠ SleepStage.Wake →
      sleepOnsetLatency ivs recStart = pyInt ((iv.start_time - recStart) / 60) ∧
      wakeAfterSleepOnset ivs =
        ((post.filter (fun j => j.stage = SleepStage.Wake)).map
          intervalMinutes).sum) ∧
    ((∀ j ∈ ivs, j.stage = SleepStage.Wake) →
      sleepOnsetLatency ivs recStart = 0 ∧ wakeAfterSleepOnset ivs = 0) := by
  constructor
  · intro pre iv post hsplit hpre hiv
    constructor
    · unfold sleepOnsetLatency
      rw [hsplit, find_nonwake_append pre iv post hpre hiv]
    · unfold wakeAfterSleepOnset
      rw [hsplit, List.foldl_append, wasoStep_wake_run pre hpre,
        List.foldl_cons]
      have hstep : wasoStep (false, 0) iv = (true, 0) := by
        unfold wasoStep
        rw [if_pos (by simpa using hiv)]
      rw [hstep, wasoStep_after_onset post 0]
      simp
  · intro hall
    constructor
    · unfold sleepOnsetLatency
      rw [find_nonwake_none ivs hall]
    · unfold wakeAfterSleepOnset
      rw [wasoStep_wake_run ivs hall]

/-- Witness for C8 at a concrete input: Wake, then N2, then Wake. -/
theorem C8_latency_waso_witness :
    sleepOnsetLatency [⟨0, 60, SleepStage.Wake, 1⟩, ⟨60, 120, SleepStage.N2, 1⟩,
        ⟨120, 180, SleepStage.Wake, 1⟩] 0 =
      pyInt (((60 : ℚ) - 0) / 60) ∧
    wakeAfterSleepOnset [⟨0, 60, SleepStage.Wake, 1⟩, ⟨60, 120, SleepStage.N2, 1⟩,
        ⟨120, 180, SleepStage.Wake, 1⟩] =
      (([⟨120, 180, SleepStage.Wake, 1⟩] : List SleepStageInterval).filter
        (fun j => j.stage = SleepStage.Wake) |>.map intervalMinutes).sum :=
  (C8_latency_waso [⟨0, 60, SleepStage.Wake, 1⟩, ⟨60, 120, SleepStage.N2, 1⟩,
      ⟨120, 180, SleepStage.Wake, 1⟩] 0).1
    [⟨0, 60, SleepStage.Wake, 1⟩] ⟨60, 120, SleepStage.N2, 1⟩
    [⟨120, 180, SleepStage.Wake, 1⟩] rfl
    (by intro j hj; simp only [List.mem_singleton] at hj; rw [hj])
    (by decide)

/-!
## Windowed feature extraction: `_extract_windowed_features`,
`_extract_statistical_features` (`app/services/preprocessor.py` lines
151-232)

Numeric helpers mirror the numpy/scipy routines used by the source.  The
frequency-domain extractor `_extract_frequency_features` (lines 234-281)
computes relative band powers from `|FFT|²`, which is transcendental over
`ℚ`; the embedding is parametric in `fftQ`, standing for its `len ≥ 4`
branch, and no theorem depends on the values `fftQ` returns.  The
`len < 4` early return of eight zeros (line 239-240) is embedded
explicitly.
-/

/-- `numpy.mean` (population mean). -/
def meanQ (l : List ℚ) : ℚ := l.sum / (l.length : ℚ)

/-- Central moment of order `r` (`numpy`/`scipy` population moments). -/
def centralMoment (l : List ℚ) (r : ℕ) : ℚ :=
  meanQ (l.map (fun x => (x - meanQ l) ^ r))

/-- `numpy.min` of a non-empty array (0 as a don't-care on empty input,
which the callers guard against). -/
def minQ (l : List ℚ) : ℚ :=
  match l with
  | [] => 0
  | h :: t => t.foldl min h

/-- `numpy.max`, as `minQ`. -/
def maxQ (l : List ℚ) : ℚ :=
  match l with
  | [] => 0
  | h :: t => t.foldl max h

/-- `numpy.diff`: consecutive differences. -/
def diffsQ : List ℚ → List ℚ
  | [] => []
  | [_] => []
  | a :: b :: t => (b - a) :: diffsQ (b :: t)

/-- `numpy.percentile(values, p)` with the default linear interpolation:
sort ascending, index `(n-1)·p/100`, interpolate between the two
bracketing entries.  `numpy.median` is the `p = 50` case. -/
def percentileQ (values : List ℚ) (p : ℚ) : ℚ :=
  let sorted := values.insertionSort (· ≤ ·)
  let pos := (((values.length : ℚ) - 1) * p) / 100
  let lo := (Int.floor pos).toNat
  let vlo := sorted.getD lo 0
  let vhi := sorted.getD (lo + 1) vlo
  vlo + (pos - (lo : ℚ)) * (vhi - vlo)

/-- `_extract_statistical_features` (preprocessor.py lines 192-232): the
12 per-column descriptors in source order — mean, std, min, max, median,
25th/75th percentile, skewness, kurtosis, then (for at least two
samples) mean absolute difference, total variation and
first-difference standard deviation, else three zeros.  An empty column
makes `numpy.min` raise, caught by the handler returning twelve zeros
(line 232).  `scipy.stats.skew`/`kurtosis` of a constant column are
`0/0 = NaN`, which line 226 replaces by `0.0`; the embedding folds that
replacement into the `m₂ = 0` branches. -/
def statFeatures (sqrtQ : ℚ → ℚ) (values : List ℚ) : List ℚ :=
  if values = [] then List.replicate 12 0
  else
    [meanQ values, sqrtQ (centralMoment values 2), minQ values, maxQ values,
      percentileQ values 50, percentileQ values 25, percentileQ values 75,
      (if centralMoment values 2 = 0 then 0
        else centralMoment values 3 /
          (centralMoment values 2 * sqrtQ (centralMoment values 2))),
      (if centralMoment values 2 = 0 then 0
        else centralMoment values 4 / (centralMoment values 2) ^ 2 - 3)] ++
    (if 1 < values.length then
      [meanQ ((diffsQ values).map (fun x => |x|)),
        ((diffsQ values).map (fun x => |x|)).sum,
        sqrtQ (centralMoment (diffsQ values) 2)]
     else [0, 0, 0])

/-- `_extract_frequency_features` (preprocessor.py lines 234-281): fewer
than four samples yield eight zeros; otherwise the FFT-based band powers,
abstracted by `fftQ`. -/
def freqFeatures (fftQ : List ℚ → List ℚ) (values : List ℚ) : List ℚ :=
  if values.length < 4 then List.replicate 8 0 else fftQ values

/-- Per-window feature assembly (preprocessor.py lines 170-183): for each
feature column in order, the statistical block then the frequency block.
Modelled from the spec: the `PreprocessingParams` flags
`extract_statistical_features` / `extract_frequency_features` live in the
absent `app/models/internal_models.py`; spec.md §4.3 states that both the
12 statistical and the 8 frequency descriptors are computed, so both
blocks are enabled. -/
def windowFeatures {α : Type} (sqrtQ : ℚ → ℚ) (fftQ : List ℚ → List ℚ)
    (cols : List (α → ℚ)) (rows : List α) : List ℚ :=
  cols.flatMap (fun col =>
    statFeatures sqrtQ (rows.map col) ++ freqFeatures fftQ (rows.map col))

/-- Python `range(0, stop, step)` for positive `step`, built with enough
fuel (`stop` iterations suffice since `step ≥ 1`). -/
def rangeAux (stop step : ℕ) : ℕ → ℕ → List ℕ
  | 0, _ => []
  | fuel + 1, start =>
    if start < stop then start :: rangeAux stop step fuel (start + step) else []

/-- Python `range(0, stop, step)` with an integer stop and positive
step. -/
def pyRange (stop : ℤ) (step : ℕ) : List ℕ :=
  rangeAux stop.toNat step stop.toNat 0

/-- `_extract_windowed_features` (preprocessor.py lines 151-190):
`window_samples = int(window_size * sampling_rate)`,
`step = int(window_samples * (1 - overlap))`, windows at
`range(0, len(df) - window_samples + 1, step)`, each a full
`window_samples`-row slice.  A non-positive step cannot drive the range
(`step = 0` raises `ValueError` in Python; a negative step only arises
for `overlap > 1`, outside every claim), hence `none` there. -/
def extractWindowedFeatures {α : Type} (sqrtQ : ℚ → ℚ)
    (fftQ : List ℚ → List ℚ) (cols : List (α → ℚ)) (rows : List α)
    (windowSize rate overlap : ℚ) : Option (List (List ℚ)) :=
  let ws := (pyInt (windowSize * rate)).toNat
  let stepZ := pyInt ((ws : ℚ) * (1 - overlap))
  if stepZ ≤ 0 then none
  else some ((pyRange ((rows.length : ℤ) - (ws : ℤ) + 1) stepZ.toNat).map
    (fun s => windowFeatures sqrtQ fftQ cols ((rows.drop s).take ws)))

/-- Length of the fueled range, given enough fuel. -/
lemma rangeAux_length (stop step : ℕ) (hstep : 1 ≤ step) :
    ∀ (fuel start : ℕ), stop ≤ start + fuel →
      (rangeAux stop step fuel start).length = (stop - start + step - 1) / step := by
  intro fuel
  induction fuel with
  | zero =>
    intro start hf
    have hss : stop - start = 0 := by omega
    rw [rangeAux]
    simp only [List.length_nil, hss]
    rw [Nat.zero_add, Nat.div_eq_of_lt (by omega)]
  | succ n ih =>
    intro start hf
    rw [rangeAux]
    by_cases hlt : start < stop
    · rw [if_pos hlt, List.length_cons, ih (start + step) (by omega)]
      by_cases hcase : stop ≤ start + step
      · have h1 : stop - (start + step) = 0 := by omega
        rw [h1]
        rw [Nat.zero_add, Nat.div_eq_of_lt (by omega)]
        have h2 : stop - start + step - 1 = (stop - start - 1) + step := by omega
        rw [h2, Nat.add_div_right _ (by omega), Nat.div_eq_of_lt (by omega)]
      · have h2 : stop - start + step - 1 = (stop - (start + step) + step - 1) + step := by
          omega
        rw [h2, Nat.add_div_right _ (by omega)]
    · rw [if_neg hlt]
      simp only [List.length_nil]
      have hss : stop - start = 0 := by omega
      rw [hss, Nat.zero_add, Nat.div_eq_of_lt (by omega)]

/-- Every range element is below the stop. -/
lemma rangeAux_mem_lt (stop step : ℕ) :
    ∀ (fuel start x : ℕ), x ∈ rangeAux stop step fuel start → x < stop := by
  intro fuel
  induction fuel with
  | zero => intro start x hx; rw [rangeAux] at hx; simp at hx
  | succ n ih =>
    intro start x hx
    rw [rangeAux] at hx
    by_cases hlt : start < stop
    · rw [if_pos hlt] at hx
      rcases List.mem_cons.mp hx with rfl | hx'
      · exact hlt
      · exact ih _ _ hx'
    · rw [if_neg hlt] at hx
      simp at hx

/-- C2 (amended): with `window_samples = int(window_seconds·rate)` and
positive `step = int(window_samples·(1−overlap))`, extraction succeeds
and produces `⌊(n − window_samples)/step⌋ + 1` windows whenever a full
window fits (`n ≥ window_samples`), zero windows otherwise; every
generated window start admits a full window (`s + window_samples ≤ n`),
so a final partial window is dropped, never padded. -/
theorem C2_window_count {α : Type} (sqrtQ : ℚ → ℚ) (fftQ : List ℚ → List ℚ)
    (cols : List (α → ℚ)) (rows : List α) (windowSize rate overlap : ℚ)
    (ws step : ℕ)
    (hws : ws = (pyInt (windowSize * rate)).toNat)
    (hstepdef : step = (pyInt ((ws : ℚ) * (1 - overlap))).toNat)
    (hstep : 1 ≤ step) :
    ∃ wins, extractWindowedFeatures sqrtQ fftQ cols rows windowSize rate overlap
        = some wins ∧
      (ws ≤ rows.length → wins.length = (rows.length - ws) / step + 1) ∧
      (rows.length < ws → wins.length = 0) ∧
      (∀ s ∈ pyRange ((rows.length : ℤ) - (ws : ℤ) + 1) step,
        s + ws ≤ rows.length) := by
  have hpos : ¬ (pyInt (((pyInt (windowSize * rate)).toNat : ℚ) * (1 - overlap)) ≤ 0) := by
    intro hle
    rw [← hws] at hle
    rw [hstepdef] at hstep
    omega
  have hex : extractWindowedFeatures sqrtQ fftQ cols rows windowSize rate overlap =
      some ((pyRange ((rows.length : ℤ) - (ws : ℤ) + 1) step).map
        (fun s => windowFeatures sqrtQ fftQ cols ((rows.drop s).take ws))) := by
    simp only [extractWindowedFeatures]
    rw [if_neg hpos, ← hws, ← hstepdef]
  refine ⟨_, hex, ?_, ?_, ?_⟩
  · intro hfit
    rw [List.length_map]
    unfold pyRange
    have harg : (((rows.length : ℤ) - (ws : ℤ) + 1)).toNat = rows.length - ws + 1 := by
      omega
    rw [harg, rangeAux_length _ _ hstep _ 0 (by omega)]
    have h2 : rows.length - ws + 1 - 0 + step - 1 = (rows.length - ws) + step := by
      omega
    rw [h2, Nat.add_div_right _ (by omega)]
  · intro hshort
    rw [List.length_map]
    unfold pyRange
    have harg : (((rows.length : ℤ) - (ws : ℤ) + 1)).toNat = 0 := by omega
    rw [harg]
    rfl
  · intro s hs
    unfold pyRange at hs
    have hlt := rangeAux_mem_lt _ _ _ _ _ hs
    omega

/-- C2 counterexample: a non-empty one-sample stream with the default
30-second window (rate 1, overlap 0.5) produces zero windows, while the
claimed formula `⌊(n − window_samples)/step⌋ + 1 = ⌊(1 − 30)/15⌋ + 1`
evaluates to `−1 ≠ 0`. -/
theorem C2_counterexample :
    extractWindowedFeatures (fun q => q) (fun v => v) [fun q : ℚ => q]
        [(0 : ℚ)] 30 1 (1/2) = some [] ∧
    (⌊(((1 : ℚ) - 30) / 15)⌋ + 1 : ℤ) = -1 ∧ ((-1 : ℤ) ≠ 0) := by
  refine ⟨?_, by norm_num, by norm_num⟩
  unfold extractWindowedFeatures pyRange
  norm_num [pyInt, rangeAux, show ((30 : ℤ).toNat) = 30 from rfl]

/-- Witness for C2 (amended): four samples, a two-sample window, no
overlap: two windows, both full. -/
theorem C2_window_count_witness :
    ∃ wins, extractWindowedFeatures (fun q => q) (fun v => v) [fun q : ℚ => q]
        [(0 : ℚ), 0, 0, 0] 2 1 0 = some wins ∧
      (2 ≤ [(0 : ℚ), 0, 0, 0].length →
        wins.length = ([(0 : ℚ), 0, 0, 0].length - 2) / 2 + 1) ∧
      ([(0 : ℚ), 0, 0, 0].length < 2 → wins.length = 0) ∧
      (∀ s ∈ pyRange (([(0 : ℚ), 0, 0, 0].length : ℤ) - ((2 : ℕ) : ℤ) + 1) 2,
        s + 2 ≤ [(0 : ℚ), 0, 0, 0].length) :=
  C2_window_count _ _ _ _ 2 1 0 2 2
    (by norm_num [pyInt, show ((2 : ℤ).toNat) = 2 from rfl])
    (by norm_num [pyInt, show ((2 : ℤ).toNat) = 2 from rfl]) (by norm_num)

/-!
## Sensor readings and the model-facing 6-feature fusion
(`app/services/preprocessor.py` lines 23-149 and 381-429)
-/

/-- `AccelerometerReading` of the request models (the
`app/models/request_models.py` file is absent; fields are as consumed in
preprocessor.py lines 88-96: timestamp and the three axis values). -/
structure AccelerometerReading where
  timestamp : ℚ
  x : ℚ
  y : ℚ
  z : ℚ
deriving DecidableEq

/-- `AudioReading` of the request models (fields as consumed in
preprocessor.py lines 122-136: timestamp, amplitude, eight frequency
bands). -/
structure AudioReading where
  timestamp : ℚ
  amplitude : ℚ
  frequency_bands : List ℚ
deriving DecidableEq

/-- `_process_accelerometer_data` (preprocessor.py lines 79-112): sort by
timestamp, then windowed extraction over the columns x, y, z.  The pandas
sort is modelled as a stable insertion sort by timestamp. -/
def processAccelerometerData (sqrtQ : ℚ → ℚ) (fftQ : List ℚ → List ℚ)
    (data : List AccelerometerReading) (windowSize overlap rate : ℚ) :
    Option (List (List ℚ)) :=
  extractWindowedFeatures sqrtQ fftQ
    [fun r => r.x, fun r => r.y, fun r => r.z]
    (data.insertionSort (fun a b => a.timestamp ≤ b.timestamp))
    windowSize rate overlap

/-- `_process_audio_data` (preprocessor.py lines 114-149): sort by
timestamp, then windowed extraction over the columns amplitude,
freq_band_0 … freq_band_7. -/
def processAudioData (sqrtQ : ℚ → ℚ) (fftQ : List ℚ → List ℚ)
    (data : List AudioReading) (windowSize overlap rate : ℚ) :
    Option (List (List ℚ)) :=
  extractWindowedFeatures sqrtQ fftQ
    ((fun r => r.amplitude) ::
      (List.range 8).map (fun i => fun r => r.frequency_bands.getD i 0))
    (data.insertionSort (fun a b => a.timestamp ≤ b.timestamp))
    windowSize rate overlap

/-- `_extract_model_specific_features` (preprocessor.py lines 381-429):
per window, select `accel_window[0..4]` (guarded by length checks,
defaulting to 0.0) and the last entry of the matching audio feature
vector.  The handler at lines 426-429 is unreachable in the pure
embedding. -/
def extractModelSpecificFeatures (accelF audioF : List (List ℚ)) :
    List (List ℚ) :=
  (List.range accelF.length).map (fun i =>
    [(if 0 < (accelF.getD i []).length then (accelF.getD i []).getD 0 0 else 0),
     (if 1 < (accelF.getD i []).length then (accelF.getD i []).getD 1 0 else 0),
     (if 2 < (accelF.getD i []).length then (accelF.getD i []).getD 2 0 else 0),
     (if 3 < (accelF.getD i []).length then (accelF.getD i []).getD 3 0 else 0),
     (if 4 < (accelF.getD i []).length then (accelF.getD i []).getD 4 0 else 0),
     (if i < audioF.length ∧ 0 < (audioF.getD i []).length
       then (audioF.getD i []).getLast?.getD 0 else 0)])

/-- The fusion step of `process_sensor_data` (preprocessor.py lines
32-47): run both per-stream extractions, then select the 6 model-facing
features.  The code then labels them `mean_acc_x, mean_acc_y, mean_acc_z,
acc_std_total, acc_energy_total, audio_z` (lines 50-53). -/
def fuseModelFeatures (sqrtQ : ℚ → ℚ) (fftQ : List ℚ → List ℚ)
    (accel : List AccelerometerReading) (audio : List AudioReading)
    (windowSize overlap rate : ℚ) : Option (List (List ℚ)) :=
  match processAccelerometerData sqrtQ fftQ accel windowSize overlap rate,
        processAudioData sqrtQ fftQ audio windowSize overlap rate with
  | some af, some auf => some (extractModelSpecificFeatures af auf)
  | _, _ => none

/-- Unfolding of `statFeatures` on a non-empty column. -/
lemma statFeatures_cons (sqrtQ : ℚ → ℚ) (v : ℚ) (vs : List ℚ) :
    statFeatures sqrtQ (v :: vs) =
      [meanQ (v :: vs), sqrtQ (centralMoment (v :: vs) 2), minQ (v :: vs),
        maxQ (v :: vs), percentileQ (v :: vs) 50, percentileQ (v :: vs) 25,
        percentileQ (v :: vs) 75,
        (if centralMoment (v :: vs) 2 = 0 then 0
          else centralMoment (v :: vs) 3 /
            (centralMoment (v :: vs) 2 * sqrtQ (centralMoment (v :: vs) 2))),
        (if centralMoment (v :: vs) 2 = 0 then 0
          else centralMoment (v :: vs) 4 / (centralMoment (v :: vs) 2) ^ 2 - 3)] ++
      (if 1 < (v :: vs).length then
        [meanQ ((diffsQ (v :: vs)).map (fun x => |x|)),
          ((diffsQ (v :: vs)).map (fun x => |x|)).sum,
          sqrtQ (centralMoment (diffsQ (v :: vs)) 2)]
       else [0, 0, 0]) := by
  unfold statFeatures
  rw [if_neg (List.cons_ne_nil v vs)]

set_option maxRecDepth 4000 in
/-- C6: evaluation of the fusion pipeline at a window whose x-axis values
are 0 and 2 and whose y and z axes are constantly 5 and 7.  The six
model-facing features come out as mean, standard deviation, minimum,
maximum and median *of the x axis* followed by the trailing audio
descriptor — positions 0-4 of the x column's statistical block — even
though the code names them `mean_acc_x, mean_acc_y, mean_acc_z,
acc_std_total, acc_energy_total, audio_z` (preprocessor.py lines 50-53,
395-409): the means of y and z (5 and 7) appear in no slot. -/
theorem C6_feature_selection_bug (sqrtQ : ℚ → ℚ) (fftQ : List ℚ → List ℚ) :
    fuseModelFeatures sqrtQ fftQ
        [⟨0, 0, 5, 7⟩, ⟨1, 2, 5, 7⟩]
        [⟨0, 3/10, List.replicate 8 0⟩, ⟨1, 3/10, List.replicate 8 0⟩]
        2 0 1 =
      some [[1, sqrtQ 1, 0, 2, 1, 0]] ∧
    meanQ [(0 : ℚ), 2] = 1 ∧ centralMoment [(0 : ℚ), 2] 2 = 1 ∧
    minQ [(0 : ℚ), 2] = 0 ∧ maxQ [(0 : ℚ), 2] = 2 ∧
    percentileQ [(0 : ℚ), 2] 50 = 1 ∧
    meanQ [(5 : ℚ), 5] = 5 ∧ meanQ [(7 : ℚ), 7] = 7 ∧
    (0 : ℚ) ≠ 5 ∧ (0 : ℚ) ≠ 7 := by
  refine ⟨?_, ?_, ?_, ?_, ?_, ?_, ?_, ?_, by norm_num, by norm_num⟩
  · unfold fuseModelFeatures processAccelerometerData processAudioData
      extractWindowedFeatures pyRange extractModelSpecificFeatures
    norm_num [pyInt, rangeAux, statFeatures_cons, freqFeatures, windowFeatures,
      meanQ, centralMoment, minQ, maxQ, percentileQ, diffsQ,
      List.insertionSort, List.orderedInsert, List.replicate, List.getLast?,
      show ((2 : ℤ).toNat) = 2 from rfl,
      show List.range 8 = [0, 1, 2, 3, 4, 5, 6, 7] from rfl,
      show List.range 1 = [0] from rfl]
  · norm_num [meanQ]
  · norm_num [centralMoment, meanQ]
  · norm_num [minQ]
  · norm_num [maxQ]
  · norm_num [percentileQ, List.insertionSort, List.orderedInsert]
  · norm_num [meanQ]
  · norm_num [meanQ]

/-!
## Sensor validator: `validate_sensor_data`
(`app/utils/validation_utils.py` lines 12-84)
-/

/-- `SensorDataValidation` of the internal models (fields as constructed
in validation_utils.py lines 29-37 and 64-72). -/
structure SensorDataValidation where
  is_valid : Bool
  validation_errors : List String
  has_time_gaps : Bool
  irregular_sampling : Bool
  sensor_saturation : Bool
  excessive_noise : Bool
  recommended_actions : List String
deriving DecidableEq

/-- `validate_sensor_data` (validation_utils.py lines 12-84).  Empty
streams short-circuit to an invalid result (lines 22-37).  For non-empty
streams the source computes time, range and quality findings and an
`is_valid` flag (lines 39-61) — all of them pure and exception-free (each
sub-validator catches internally) — and then discards every finding,
returning the permissive constant marked "임시로 모든 검증을 통과시킴"
(lines 63-72).  The embedding therefore returns that constant
directly. -/
def validate_sensor_data (accel : List AccelerometerReading)
    (audio : List AudioReading) : SensorDataValidation :=
  if accel = [] ∨ audio = [] then
    { is_valid := false,
      validation_errors :=
        (if accel = [] then ["가속도계 데이터가 없습니다"] else []) ++
        (if audio = [] then ["오디오 데이터가 없습니다"] else []),
      has_time_gaps := false,
      irregular_sampling := false,
      sensor_saturation := false,
      excessive_noise := false,
      recommended_actions := ["센서 데이터를 확인하고 다시 시도하세요"] }
  else
    { is_valid := true,
      validation_errors := [],
      has_time_gaps := false,
      irregular_sampling := false,
      sensor_saturation := false,
      excessive_noise := false,
      recommended_actions := [] }

/-- C4: for every pair of non-empty streams the validator returns
`is_valid = true` with empty error, flag and action lists regardless of
any findings (permissive pass-through); whenever either stream is empty
it returns `is_valid = false`. -/
theorem C4_validator_permissive (accel : List AccelerometerReading)
    (audio : List AudioReading) :
    (accel ≠ [] → audio ≠ [] →
      validate_sensor_data accel audio =
        { is_valid := true, validation_errors := [], has_time_gaps := false,
          irregular_sampling := false, sensor_saturation := false,
          excessive_noise := false, recommended_actions := [] }) ∧
    ((accel = [] ∨ audio = []) →
      (validate_sensor_data accel audio).is_valid = false) := by
  constructor
  · intro ha hu
    unfold validate_sensor_data
    rw [if_neg (by simp [ha, hu])]
  · intro h
    unfold validate_sensor_data
    rw [if_pos h]

/-- Witness for C4 at concrete inputs: one-sample streams pass
permissively; an empty accelerometer stream fails. -/
theorem C4_validator_permissive_witness :
    validate_sensor_data [⟨0, 1, 1, 1⟩] [⟨0, 1/2, List.replicate 8 0⟩] =
      { is_valid := true, validation_errors := [], has_time_gaps := false,
        irregular_sampling := false, sensor_saturation := false,
        excessive_noise := false, recommended_actions := [] } ∧
    (validate_sensor_data ([] : List AccelerometerReading)
      [⟨0, 1/2, List.replicate 8 0⟩]).is_valid = false :=
  ⟨(C4_validator_permissive [⟨0, 1, 1, 1⟩] [⟨0, 1/2, List.replicate 8 0⟩]).1
      (by simp) (by simp),
   (C4_validator_permissive [] [⟨0, 1/2, List.replicate 8 0⟩]).2 (Or.inl rfl)⟩

/-!
## Quality scorer: `check_data_quality`
(`app/utils/time_series_utils.py` lines 15-566)

The Python sub-score dictionaries become records whose sub-score fields
are `Option ℚ` (present only on the non-error path, matching
`dict.get(key, default)` reads in the recommendation generator).
`numpy.std`/magnitudes need square roots and the time-consistency decay
needs `exp`; both are abstracted by the parameters `sqrtQ`/`expQ`.
-/

/-- `numpy.std` (population standard deviation) via the abstract square
root. -/
def stdQ (sqrtQ : ℚ → ℚ) (l : List ℚ) : ℚ := sqrtQ (centralMoment l 2)

/-- The accelerometer quality dictionary (time_series_utils.py lines
97-139 / error shape line 143). -/
structure AccelQualityDict where
  overall_score : ℚ
  time_consistency : Option ℚ
  signal_quality : Option ℚ
  no_saturation : Option ℚ
  low_noise : Option ℚ
  movement_pattern : Option ℚ
  error : Option String

/-- The audio quality dictionary (lines 159-197 / error shape line
203). -/
structure AudioQualityDict where
  overall_score : ℚ
  time_consistency : Option ℚ
  signal_level : Option ℚ
  frequency_quality : Option ℚ
  no_saturation : Option ℚ
  low_noise : Option ℚ
  error : Option String

/-- `DataQualityReport` as assembled at lines 51-59. -/
structure DataQualityReport where
  overall_score : ℚ
  accelerometer_quality : AccelQualityDict
  audio_quality : AudioQualityDict
  missing_data_percentage : ℚ
  outlier_percentage : ℚ
  noise_level : ℚ
  recommendations : List String

/-- `_calculate_time_consistency_score` (lines 206-236).  A zero sampling
rate makes `1.0/rate` raise `ZeroDivisionError`, caught by the handler
returning 0.0 — embedded as the explicit `rate = 0` branch. -/
def timeConsistencyScore (sqrtQ expQ : ℚ → ℚ) (rate : ℚ)
    (timestamps : List ℚ) : ℚ :=
  if timestamps.length < 2 then 0
  else if diffsQ timestamps = [] then 0
  else if rate = 0 then 0
  else
    let expected := 1 / rate
    let std_dev := stdQ sqrtQ (diffsQ timestamps)
    let maxStd := expected * (1 / 10)
    if std_dev ≤ maxStd then 1
    else max 0 (expQ (-(std_dev / maxStd)))

/-- `_calculate_signal_quality_score` (lines 239-261) over the flattened
sample matrix. -/
def signalQualityScore (values : List ℚ) : ℚ :=
  if values = [] then 0
  else
    let range := maxQ values - minQ values
    if 1 / 10 ≤ range ∧ range ≤ 10 then 1
    else if range < 1 / 10 then range / (1 / 10)
    else max 0 (1 - (range - 10) / 10)

/-- `_calculate_saturation_score` (lines 264-278). -/
def saturationScore (values : List ℚ) (threshold : ℚ) : ℚ :=
  if values = [] then 0
  else max 0 (1 -
    ((values.filter (fun v => threshold ≤ |v|)).length : ℚ) /
      (values.length : ℚ) * 10)

/-- `_calculate_noise_score` (lines 281-303): first differences of the
row-major flattened matrix; one row or fewer scores 1. -/
def noiseScore (sqrtQ : ℚ → ℚ) (rowCount : ℕ) (values : List ℚ) : ℚ :=
  if values = [] then 0
  else if 1 < rowCount then
    let noise := stdQ sqrtQ (diffsQ values)
    if noise ≤ 1 / 10 then 1
    else max 0 (1 - noise / (1 / 10))
  else 1

/-- `_calculate_movement_score` (lines 306-329): variance of the per-row
3-axis magnitudes. -/
def movementScore (sqrtQ : ℚ → ℚ) (rows : List AccelerometerReading) : ℚ :=
  if rows = [] then 0
  else
    let mv := centralMoment
      (rows.map (fun r => sqrtQ (r.x ^ 2 + r.y ^ 2 + r.z ^ 2))) 2
    if 1 / 100 ≤ mv ∧ mv ≤ 1 then 1
    else if mv < 1 / 100 then mv / (1 / 100)
    else max 0 (1 - (mv - 1) / 1)

/-- `_calculate_audio_signal_level_score` (lines 332-352). -/
def audioSignalLevelScore (amps : List ℚ) : ℚ :=
  if amps = [] then 0
  else
    let m := meanQ amps
    if (1 / 100 ≤ m ∧ m ≤ 4 / 5) ∧ maxQ amps < 19 / 20 then 1
    else if m < 1 / 100 then m / (1 / 100)
    else max 0 (1 - (m - 4 / 5) / (1 / 5))

/-- One frequency-band column of the band matrix. -/
def bandColumn (rows : List (List ℚ)) (j : ℕ) : List ℚ :=
  rows.map (fun r => r.getD j 0)

/-- `_calculate_frequency_quality_score` (lines 355-379): per-band
variance over the (uniform-width, 8 in the reference configuration) band
matrix, scored and averaged. -/
def frequencyQualityScore (freq_bands : List (List ℚ)) : ℚ :=
  if freq_bands = [] then 0
  else
    meanQ ((List.range (freq_bands.headD []).length).map (fun j =>
      let variance := centralMoment (bandColumn freq_bands j) 2
      if variance ≤ 1 / 10 then 1
      else max 0 (1 - (variance - 1 / 10) / (1 / 10))))

/-- `_calculate_audio_noise_score` (lines 382-401). -/
def audioNoiseScore (amps : List ℚ) : ℚ :=
  if amps.length < 2 then 1
  else
    let md := meanQ ((diffsQ amps).map (fun x => |x|))
    if md ≤ 1 / 20 then 1 else max 0 (1 - md / (1 / 20))

/-- `_assess_accelerometer_quality` (lines 78-143): the five weighted
sub-scores (weights .3/.2/.2/.2/.1); an empty stream short-circuits to
overall 0.0 with the error annotation "데이터 없음" (line 84). -/
def assessAccelerometerQuality (sqrtQ expQ : ℚ → ℚ) (rate : ℚ)
    (data : List AccelerometerReading) : AccelQualityDict :=
  if data = [] then ⟨0, none, none, none, none, none, some "데이터 없음"⟩
  else
    let flat := data.flatMap (fun r => [r.x, r.y, r.z])
    let t := timeConsistencyScore sqrtQ expQ rate (data.map (fun r => r.timestamp))
    let sq := signalQualityScore flat
    let sat := saturationScore flat 18
    let ns := noiseScore sqrtQ data.length flat
    let mv := movementScore sqrtQ data
    ⟨t * (3 / 10) + sq * (1 / 5) + sat * (1 / 5) + ns * (1 / 5) + mv * (1 / 10),
      some t, some sq, some sat, some ns, some mv, none⟩

/-- `_assess_audio_quality` (lines 146-203): the five weighted sub-scores
(weights .25/.25/.25/.15/.1); an empty stream short-circuits to overall
0.0 with the error annotation (line 152). -/
def assessAudioQuality (sqrtQ expQ : ℚ → ℚ) (rate : ℚ)
    (data : List AudioReading) : AudioQualityDict :=
  if data = [] then ⟨0, none, none, none, none, none, some "데이터 없음"⟩
  else
    let amps := data.map (fun r => r.amplitude)
    let t := timeConsistencyScore sqrtQ expQ rate (data.map (fun r => r.timestamp))
    let sl := audioSignalLevelScore amps
    let fq := frequencyQualityScore (data.map (fun r => r.frequency_bands))
    let sat := saturationScore amps (19 / 20)
    let ns := audioNoiseScore amps
    ⟨t * (1 / 4) + sl * (1 / 4) + fq * (1 / 4) + sat * (3 / 20) + ns * (1 / 10),
      some t, some sl, some fq, some sat, some ns, none⟩

/-- `_calculate_missing_data_percentage` (lines 404-426).  A zero
expected count makes the division raise `ZeroDivisionError`, caught by
the handler returning 0.0. -/
def missingDataPercentage (rate : ℚ) (accel : List AccelerometerReading)
    (audio : List AudioReading) : ℚ :=
  if accel = [] ∨ audio = [] then 100
  else
    let ts := accel.map (fun r => r.timestamp)
    let expected := pyInt ((maxQ ts - minQ ts) * rate)
    if expected = 0 then 0
    else min 100 (max 0
      (((expected : ℚ) - (accel.length : ℚ)) / (expected : ℚ) * 100))

/-- IQR outliers (lines 444-453 and 459-468): entries outside
`[q1 − 1.5·iqr, q3 + 1.5·iqr]`. -/
def iqrOutlierCount (values : List ℚ) : ℕ :=
  let q1 := percentileQ values 25
  let q3 := percentileQ values 75
  (values.filter (fun v =>
    v < q1 - 3 / 2 * (q3 - q1) ∨ q3 + 3 / 2 * (q3 - q1) < v)).length

/-- `_calculate_outlier_percentage` (lines 429-477). -/
def outlierPercentage (accel : List AccelerometerReading)
    (audio : List AudioReading) : ℚ :=
  let accelValues := accel.flatMap (fun r => [r.x, r.y, r.z])
  let audioAmps := audio.map (fun r => r.amplitude)
  let cnt := (if accelValues = [] then 0 else iqrOutlierCount accelValues) +
    (if audioAmps = [] then 0 else iqrOutlierCount audioAmps)
  let total := (if accelValues = [] then 0 else accelValues.length) +
    (if audioAmps = [] then 0 else audioAmps.length)
  if total = 0 then 0 else (cnt : ℚ) / (total : ℚ) * 100

/-- Consecutive pairwise changes (lines 490-495 and 504-508). -/
def pairChanges {α : Type} (f : α → α → ℚ) : List α → List ℚ
  | [] => []
  | [_] => []
  | a :: b :: t => f a b :: pairChanges f (b :: t)

/-- `_assess_noise_level` (lines 480-519). -/
def assessNoiseLevel (accel : List AccelerometerReading)
    (audio : List AudioReading) : ℚ :=
  let scores :=
    (if 1 < accel.length then
      let cs := pairChanges
        (fun a b => |b.x - a.x| + |b.y - a.y| + |b.z - a.z|) accel
      if cs = [] then [] else [min 1 (meanQ cs / (1 / 2))]
     else []) ++
    (if 1 < audio.length then
      let cs := pairChanges (fun a b => |b.amplitude - a.amplitude|) audio
      if cs = [] then [] else [min 1 (meanQ cs / (1 / 10))]
     else [])
  if scores = [] then 0 else meanQ scores

/-- `_generate_recommendations` (lines 522-566): threshold-driven
messages; `dict.get(key, 1.0)` reads become `Option.getD`; an empty list
becomes the default adequate-quality message. -/
def generateRecommendations (overall : ℚ) (accelQ : AccelQualityDict)
    (audioQ : AudioQualityDict) (missing outlier noise : ℚ) : List String :=
  let recs :=
    (if overall < 7 / 10 then
      ["전반적인 데이터 품질이 낮습니다. 센서 설정을 확인하세요."] else []) ++
    (if 5 < missing then
      ["데이터 누락이 많습니다. 센서 연결 상태를 확인하세요."] else []) ++
    (if 10 < outlier then
      ["이상값이 많이 감지됩니다. 센서 교정을 확인하세요."] else []) ++
    (if 7 / 10 < noise then
      ["노이즈 수준이 높습니다. 안정적인 환경에서 측정하세요."] else []) ++
    (if accelQ.time_consistency.getD 1 < 4 / 5 then
      ["가속도계 샘플링이 불규칙합니다. 센서 드라이버를 확인하세요."] else []) ++
    (if accelQ.no_saturation.getD 1 < 4 / 5 then
      ["가속도계 센서 포화가 감지됩니다. 센서 위치를 조정하세요."] else []) ++
    (if audioQ.signal_level.getD 1 < 7 / 10 then
      ["오디오 신호 레벨이 부적절합니다. 마이크 설정을 확인하세요."] else []) ++
    (if audioQ.no_saturation.getD 1 < 4 / 5 then
      ["오디오 입력 포화가 감지됩니다. 마이크 감도를 조정하세요."] else [])
  if recs = [] then ["데이터 품질이 양호합니다."] else recs

/-- `check_data_quality` (lines 15-75): assemble the report from the two
stream assessments, the overall mean, and the auxiliary percentages.
The embedding is total, so the outer `except` fallback (lines 64-75) is
unreachable. -/
def check_data_quality (sqrtQ expQ : ℚ → ℚ) (rate : ℚ)
    (accel : List AccelerometerReading) (audio : List AudioReading) :
    DataQualityReport :=
  let accelQ := assessAccelerometerQuality sqrtQ expQ rate accel
  let audioQ := assessAudioQuality sqrtQ expQ rate audio
  let overall := (accelQ.overall_score + audioQ.overall_score) / 2
  let missing := missingDataPercentage rate accel audio
  let outlier := outlierPercentage accel audio
  let noise := assessNoiseLevel accel audio
  ⟨overall, accelQ, audioQ, missing, outlier, noise,
    generateRecommendations overall accelQ audioQ missing outlier noise⟩

/-- C5: the quality scorer is a total function — for every input it
returns the fully assembled `DataQualityReport` whose overall score is
the mean of the two stream scores — and an empty stream degrades the
affected stream's score to 0.0 with an error annotation instead of
propagating a failure. -/
theorem C5_scorer_total (sqrtQ expQ : ℚ → ℚ) (rate : ℚ)
    (accel : List AccelerometerReading) (audio : List AudioReading) :
    (accel = [] →
      (assessAccelerometerQuality sqrtQ expQ rate accel).overall_score = 0 ∧
      (assessAccelerometerQuality sqrtQ expQ rate accel).error =
        some "데이터 없음") ∧
    (audio = [] →
      (assessAudioQuality sqrtQ expQ rate audio).overall_score = 0 ∧
      (assessAudioQuality sqrtQ expQ rate audio).error = some "데이터 없음") ∧
    (check_data_quality sqrtQ expQ rate accel audio).overall_score =
      ((assessAccelerometerQuality sqrtQ expQ rate accel).overall_score +
        (assessAudioQuality sqrtQ expQ rate audio).overall_score) / 2 ∧
    (check_data_quality sqrtQ expQ rate accel audio).accelerometer_quality =
      assessAccelerometerQuality sqrtQ expQ rate accel ∧
    (check_data_quality sqrtQ expQ rate accel audio).audio_quality =
      assessAudioQuality sqrtQ expQ rate audio := by
  refine ⟨?_, ?_, rfl, rfl, rfl⟩
  · intro ha
    unfold assessAccelerometerQuality
    rw [if_pos ha]
    exact ⟨rfl, rfl⟩
  · intro hu
    unfold assessAudioQuality
    rw [if_pos hu]
    exact ⟨rfl, rfl⟩

/-- Witness for C5 at the empty streams. -/
theorem C5_scorer_total_witness :
    ((assessAccelerometerQuality (fun q => q) (fun q => q) 1
        ([] : List AccelerometerReading)).overall_score = 0 ∧
      (assessAccelerometerQuality (fun q => q) (fun q => q) 1
        ([] : List AccelerometerReading)).error = some "데이터 없음") ∧
    ((assessAudioQuality (fun q => q) (fun q => q) 1
        ([] : List AudioReading)).overall_score = 0 ∧
      (assessAudioQuality (fun q => q) (fun q => q) 1
        ([] : List AudioReading)).error = some "데이터 없음") :=
  ⟨(C5_scorer_total (fun q => q) (fun q => q) 1 [] []).1 rfl,
   (C5_scorer_total (fun q => q) (fun q => q) 1 [] []).2.1 rfl⟩
